import Mathlib

set_option maxRecDepth 100000

/-!
Verification of the `shellparse` module of DesktopFileEditor
(`src/shellparse/mod.rs`): the `Exec=` command-line tokenizer, the
`env`-flattening transform, and the two serializations (`Display` and
`From<Command> for Vec<String>`).

Strings are modelled by Lean `String` (a wrapper around `List Char`);
Rust's `input.chars()` iteration corresponds to folding over `String.data`.
Rust code that can panic is modelled with `Option` (`none` = panic).
-/

/-- Char literal for the double quote, written by code point to keep the
source free of quote-heavy character literals. -/
def dquote : Char := Char.ofNat 34

/-- Char literal for the single quote. -/
def squote : Char := Char.ofNat 39

/-- Char literal for the backslash. -/
def bslash : Char := Char.ofNat 92

/-- Rust `char::is_whitespace`: the Unicode `White_Space` property.
Code points: U+0009..U+000D, U+0020, U+0085, U+00A0, U+1680,
U+2000..U+200A, U+2028, U+2029, U+202F, U+205F, U+3000. -/
def rustIsWhitespace (c : Char) : Bool :=
  (0x09 ≤ c.val && c.val ≤ 0x0d) || c.val == 0x20 || c.val == 0x85 ||
  c.val == 0xa0 || c.val == 0x1680 ||
  (0x2000 ≤ c.val && c.val ≤ 0x200a) || c.val == 0x2028 || c.val == 0x2029 ||
  c.val == 0x202f || c.val == 0x205f || c.val == 0x3000

/-- The `Command` struct of `shellparse`: command name, positional
arguments, and leading `VAR=value` assignments. The Rust field
`variables` is called `vars` here because `variables` is reserved in
Lean. -/
@[ext]
structure Command where
  command : String
  args : List String
  vars : List (String × String)
deriving DecidableEq

/-- Rust `token.splitn(2, '=')` restricted to the success shape used by
`parse_variable`: splits a char list at the first `=` into the part
before and the part after; `none` when no `=` occurs. -/
def splitnEq : List Char → Option (List Char × List Char)
  | [] => none
  | c :: cs =>
    if c = Char.ofNat 61 then some ([], cs)
    else
      match splitnEq cs with
      | some (a, b) => some (c :: a, b)
      | none => none

/-- `parse_variable` from `shellparse/mod.rs`: split the token on the
first `=`; a token with no `=` is not a variable assignment. -/
def parse_variable (token : String) : Option (String × String) :=
  match splitnEq token.data with
  | some (a, b) => some (String.mk a, String.mk b)
  | none => none

/-- The local mutable state of the `parse` loop in `shellparse/mod.rs`. -/
@[ext]
structure ParseState where
  token : List Char
  command : Option String
  args : List String
  whitespace : Bool
  string_delim : Option Char
  escape : Bool
  vars : List (String × String)
deriving DecidableEq

/-- The nested `token_finished` function of `parse`: classify the
accumulated token (skipping empty tokens) and clear the accumulator. -/
def token_finished (st : ParseState) : ParseState :=
  if st.token = [] then st
  else
    let tok := String.mk st.token
    let st' :=
      match st.command with
      | none =>
        match parse_variable tok with
        | some pair => { st with vars := st.vars ++ [pair] }
        | none => { st with command := some tok }
      | some _ => { st with args := st.args ++ [tok] }
    { st' with token := [] }

/-- The first block of the `parse` loop body: on a non-whitespace
character ending a whitespace gap, finalize the pending token. -/
def stepFlush (st : ParseState) (c : Char) : ParseState :=
  if st.whitespace && !rustIsWhitespace c then
    { token_finished st with whitespace := false }
  else st

/-- The `match c` block of the `parse` loop body, fused with the trailing
`if escape && !escape_set_this_iter { escape = false }` reset: every arm
other than the unescaped-backslash arm either requires `escape = false`
(arms 2 and 3) or clears it (the catch-all), which is exactly the effect
of the Rust flag `escape_set_this_iter`. -/
def stepMatch (st : ParseState) (c : Char) : ParseState :=
  if c = bslash && !st.escape then
    { st with escape := true }
  else if (c = dquote || c = squote) && !st.escape then
    match st.string_delim with
    | some delim =>
      if c = delim then { st with string_delim := none }
      else { st with token := st.token ++ [c] }
    | none => { st with string_delim := some c }
  else if rustIsWhitespace c && st.string_delim.isNone && !st.escape then
    { st with whitespace := true }
  else
    { st with token := st.token ++ [c], escape := false }

/-- One iteration of the `for c in input.chars()` loop of `parse`. -/
def stepChar (st : ParseState) (c : Char) : ParseState :=
  stepMatch (stepFlush st c) c

/-- The initial state of the `parse` loop. -/
def initState : ParseState := ⟨[], none, [], false, none, false, []⟩

/-- `parse` on a char list: run the loop, finalize the last token, and
return `none` when no command token was ever found (the `command?` in
`shellparse/mod.rs`). -/
def parseChars (cs : List Char) : Option Command :=
  let st := token_finished (cs.foldl stepChar initState)
  match st.command with
  | none => none
  | some command => some ⟨command, st.args, st.vars⟩

/-- `parse` from `shellparse/mod.rs`. -/
def parse (input : String) : Option Command :=
  parseChars input.data

/-- Checked `usize` subtraction: Rust `a - b` on `usize` panics on
underflow (and in release mode the wrapped value makes the subsequent
slice `args[0..a-b]` panic instead), modelled as `none`. -/
def usizeSub (a b : Nat) : Option Nat :=
  if b ≤ a then some (a - b) else none

/-- The `Display` implementation for `Command`: each variable as a
`NAME=value ` pair, then the command and a space, then all but the last
argument each with a trailing space (`args[0..args.len() - 1]`), then the
last argument if any. `none` models the panic of the slice expression
when `args` is empty. -/
def Command.fmt (c : Command) : Option String := do
  let vars := String.join (c.vars.map (fun p => p.1 ++ "=" ++ p.2 ++ " "))
  let n ← usizeSub c.args.length 1
  let front := String.join ((c.args.take n).map (fun a => a ++ " "))
  let last :=
    match c.args.getLast? with
    | some a => a
    | none => ""
  pure (vars ++ c.command ++ " " ++ front ++ last)

/-- `From<Command> for Vec<String>`: one `NAME=value` string per
variable, then the command, then the arguments. -/
def Command.toVec (c : Command) : List String :=
  c.vars.map (fun p => p.1 ++ "=" ++ p.2) ++ c.command :: c.args

/-- The loop condition inside `flatten_env`: the first argument that does
not start with `-` and does not contain `=` is the real binary. -/
def isBinaryCandidate (arg : String) : Bool :=
  !(match arg.data with
    | [] => false
    | c :: _ => c = Char.ofNat 45) &&
  !(arg.data.contains (Char.ofNat 61))

/-- The binary search loop of `flatten_env`: find the first candidate
entry, returning `(args[0..i], args[i], args[i+1..])` for its index `i`,
or `none` when no entry qualifies. -/
def findBinary : List String → Option (List String × String × List String)
  | [] => none
  | a :: rest =>
    if isBinaryCandidate a then some ([], a, rest)
    else
      match findBinary rest with
      | some (pre, b, post) => some (a :: pre, b, post)
      | none => none

/-- `Command::flatten_env`: no-op unless the command is `env`; otherwise
find the first non-flag non-assignment argument, drain the arguments
before it into `vars` (dropping those that fail the `VAR=value`
split), and promote it to be the command. -/
def Command.flatten_env (c : Command) : Command :=
  if c.command ≠ "env" then c
  else
    match findBinary c.args with
    | none => c
    | some (pre, b, post) =>
      { command := b, args := post,
        vars := c.vars ++ pre.filterMap parse_variable }

/-- The tokenization-only part of the `parse` loop state: the fields
whose evolution does not depend on the token classification. -/
@[ext]
structure ScanState where
  token : List Char
  whitespace : Bool
  string_delim : Option Char
  escape : Bool
deriving DecidableEq

/-- Reassemble a `ParseState` from its tokenization fields and its
classification fields `(command, args, vars)`. -/
def mkPS (sc : ScanState)
    (acc : Option String × List String × List (String × String)) : ParseState :=
  ⟨sc.token, acc.1, acc.2.1, sc.whitespace, sc.string_delim, sc.escape, acc.2.2⟩

/-- The flush block of the loop body on the tokenization fields alone,
emitting the finished token (if any) instead of classifying it. -/
def scanFlush (sc : ScanState) (c : Char) : ScanState × Option String :=
  if sc.whitespace && !rustIsWhitespace c then
    (⟨[], false, sc.string_delim, sc.escape⟩,
     if sc.token = [] then none else some (String.mk sc.token))
  else (sc, none)

/-- The `match c` block of the loop body on the tokenization fields. -/
def scanMatch (sc : ScanState) (c : Char) : ScanState :=
  if c = bslash && !sc.escape then
    { sc with escape := true }
  else if (c = dquote || c = squote) && !sc.escape then
    match sc.string_delim with
    | some delim =>
      if c = delim then { sc with string_delim := none }
      else { sc with token := sc.token ++ [c] }
    | none => { sc with string_delim := some c }
  else if rustIsWhitespace c && sc.string_delim.isNone && !sc.escape then
    { sc with whitespace := true }
  else
    { sc with token := sc.token ++ [c], escape := false }

/-- One loop iteration on the tokenization fields, emitting the token
finished by this character, if any. -/
def scanStep (sc : ScanState) (c : Char) : ScanState × Option String :=
  ((scanMatch (scanFlush sc c).1 c), (scanFlush sc c).2)

/-- The classification performed by `token_finished` on one (nonempty)
token, as a function of the `(command, args, vars)` accumulator. -/
def classifyTok (acc : Option String × List String × List (String × String))
    (t : String) : Option String × List String × List (String × String) :=
  match acc.1 with
  | none =>
    match parse_variable t with
    | some pair => (none, acc.2.1, acc.2.2 ++ [pair])
    | none => (some t, acc.2.1, acc.2.2)
  | some cmd => (some cmd, acc.2.1 ++ [t], acc.2.2)

/-- Apply `classifyTok` to an optional emitted token. -/
def applyTok (acc : Option String × List String × List (String × String)) :
    Option String → Option String × List String × List (String × String)
  | none => acc
  | some t => classifyTok acc t

/-- Run the tokenization fields over a char list, collecting the emitted
tokens and the final scan state. -/
def scanTokens : ScanState → List Char → List String × ScanState
  | sc, [] => ([], sc)
  | sc, c :: cs =>
    let p := scanStep sc c
    let q := scanTokens p.1 cs
    (p.2.toList ++ q.1, q.2)

/-- The token stream the `parse` loop recognizes in a char list: the
tokens emitted during the scan, plus the final pending token if any. -/
def tokenize (cs : List Char) : List String :=
  let q := scanTokens ⟨[], false, none, false⟩ cs
  q.1 ++ (if q.2.token = [] then [] else [String.mk q.2.token])

/-- Classify a token stream into a `Command` the way the interleaved
`token_finished` calls of `parse` do. -/
def classify (toks : List String) : Option Command :=
  let acc := toks.foldl classifyTok (none, [], [])
  match acc.1 with
  | none => none
  | some command => some ⟨command, acc.2.1, acc.2.2⟩

/-- The optional final token emitted for a pending accumulator. -/
def flushOpt (tk : List Char) : List String :=
  if tk = [] then [] else [String.mk tk]

/-- Splitting a char list on whitespace into maximal nonempty runs — the
specification-side description of tokenization for inputs that need no
quoting or escaping. -/
def splitWsGo : List Char → List Char → List String
  | cur, [] => if cur = [] then [] else [String.mk cur]
  | cur, c :: cs =>
    if rustIsWhitespace c then
      (if cur = [] then [] else [String.mk cur]) ++ splitWsGo [] cs
    else splitWsGo (cur ++ [c]) cs

/-- Split a char list on whitespace, dropping empty tokens. -/
def splitWs (cs : List Char) : List String := splitWsGo [] cs

/-- The tokens contributed by the rest of the scan from a given state:
emitted tokens plus the final pending token. -/
def tokensFrom (sc : ScanState) (cs : List Char) : List String :=
  (scanTokens sc cs).1 ++ flushOpt (scanTokens sc cs).2.token

example : parse "" = none := by decide
example : parse "binary_name" = some ⟨"binary_name", [], []⟩ := by decide
example : parse "cmd one two" = some ⟨"cmd", ["one", "two"], []⟩ := by decide
example : parse "   " = none := by decide
example : parse "A=1 B=2" = none := by decide
example : parse "A=1 cmd B=2" = some ⟨"cmd", ["B=2"], [("A", "1")]⟩ := by decide
example : parse "cmd escaped\\ whitespace" =
    some ⟨"cmd", ["escaped whitespace"], []⟩ := by decide
example : parse "cmd \"string with space in between\"" =
    some ⟨"cmd", ["string with space in between"], []⟩ := by decide
example : parse "cmd \"\" x" = some ⟨"cmd", ["x"], []⟩ := by decide
example : Command.fmt ⟨"cmd", [], []⟩ = none := by decide
example : Command.fmt ⟨"c", ["a", "b"], [("V", "1")]⟩ = some "V=1 c a b" := by decide
example : Command.flatten_env ⟨"env", ["WINEPREFIX=/x", "wine", "target.lnk"], []⟩ =
    ⟨"wine", ["target.lnk"], [("WINEPREFIX", "/x")]⟩ := by decide

theorem stepMatch_mk (sc : ScanState)
    (acc : Option String × List String × List (String × String)) (c : Char) :
    stepMatch (mkPS sc acc) c = mkPS (scanMatch sc c) acc := by
  rcases sc with ⟨tk, w, d, e⟩
  cases d <;>
    (unfold stepMatch scanMatch mkPS; dsimp only; split_ifs <;> rfl)

theorem stepFlush_mk (sc : ScanState)
    (acc : Option String × List String × List (String × String)) (c : Char) :
    stepFlush (mkPS sc acc) c =
      mkPS (scanFlush sc c).1 (applyTok acc (scanFlush sc c).2) := by
  rcases sc with ⟨tk, w, d, e⟩
  rcases acc with ⟨cmd, args, vars⟩
  unfold stepFlush scanFlush token_finished applyTok classifyTok mkPS
  dsimp only
  split_ifs with h1 h2
  · subst h2; rfl
  · cases cmd with
    | none =>
      dsimp only
      cases h : parse_variable (String.mk tk) <;> rfl
    | some c0 => rfl
  · rfl

theorem stepChar_mk (sc : ScanState)
    (acc : Option String × List String × List (String × String)) (c : Char) :
    stepChar (mkPS sc acc) c =
      mkPS (scanStep sc c).1 (applyTok acc (scanStep sc c).2) := by
  unfold stepChar scanStep
  rw [stepFlush_mk, stepMatch_mk]

theorem scanTokens_cons (sc : ScanState) (c : Char) (cs : List Char) :
    scanTokens sc (c :: cs) =
      ((scanStep sc c).2.toList ++ (scanTokens (scanStep sc c).1 cs).1,
       (scanTokens (scanStep sc c).1 cs).2) := rfl

theorem foldl_classifyTok_toList
    (acc : Option String × List String × List (String × String))
    (out : Option String) :
    out.toList.foldl classifyTok acc = applyTok acc out := by
  cases out <;> rfl

theorem foldl_stepChar_mk (cs : List Char) (sc : ScanState)
    (acc : Option String × List String × List (String × String)) :
    cs.foldl stepChar (mkPS sc acc) =
      mkPS (scanTokens sc cs).2 ((scanTokens sc cs).1.foldl classifyTok acc) := by
  induction cs generalizing sc acc with
  | nil => rfl
  | cons c cs ih =>
    rw [List.foldl_cons, stepChar_mk, ih, scanTokens_cons]
    dsimp only
    rw [List.foldl_append, foldl_classifyTok_toList]

theorem token_finished_mk (sc : ScanState)
    (acc : Option String × List String × List (String × String)) :
    token_finished (mkPS sc acc) =
      mkPS ⟨[], sc.whitespace, sc.string_delim, sc.escape⟩
        (applyTok acc (if sc.token = [] then none else some (String.mk sc.token))) := by
  rcases sc with ⟨tk, w, d, e⟩
  rcases acc with ⟨cmd, args, vars⟩
  unfold token_finished applyTok classifyTok mkPS
  dsimp only
  split_ifs with h1
  · subst h1; rfl
  · cases cmd with
    | none =>
      dsimp only
      cases h : parse_variable (String.mk tk) <;> rfl
    | some c0 => rfl

/-- The `parse` loop factors into tokenization followed by
classification: the two share no state, so the interleaved
`token_finished` calls commute out of the scan. -/
theorem parseChars_eq_classify_tokenize (cs : List Char) :
    parseChars cs = classify (tokenize cs) := by
  have hinit : initState = mkPS ⟨[], false, none, false⟩ (none, [], []) := rfl
  unfold parseChars classify tokenize
  rw [hinit, foldl_stepChar_mk, token_finished_mk, List.foldl_append]
  dsimp only
  generalize (scanTokens ⟨[], false, none, false⟩ cs).1.foldl classifyTok (none, [], []) = acc
  generalize (scanTokens ⟨[], false, none, false⟩ cs).2.token = tk
  split_ifs with h1
  · rfl
  · simp only [List.foldl_cons, List.foldl_nil]
    rfl

theorem foldl_classifyTok_some (toks : List String) (c : String)
    (args : List String) (vars : List (String × String)) :
    toks.foldl classifyTok (some c, args, vars) = (some c, args ++ toks, vars) := by
  induction toks generalizing args with
  | nil => simp
  | cons t ts ih =>
    rw [List.foldl_cons]
    show ts.foldl classifyTok (some c, args ++ [t], vars) = _
    rw [ih]
    simp

/-- Every token list either consists entirely of `VAR=value` assignments
or splits at the first non-assignment token. -/
theorem tokens_split (toks : List String) :
    (∀ t ∈ toks, (parse_variable t).isSome = true) ∨
      ∃ vs c as, toks = vs ++ c :: as ∧
        (∀ v ∈ vs, (parse_variable v).isSome = true) ∧ parse_variable c = none := by
  induction toks with
  | nil => exact Or.inl (by simp)
  | cons t ts ih =>
    cases h : parse_variable t with
    | none =>
      exact Or.inr ⟨[], t, ts, by simp, by simp, h⟩
    | some p =>
      rcases ih with h1 | ⟨vs, c, as, heq, hvs, hc⟩
      · refine Or.inl ?_
        intro x hx
        rcases List.mem_cons.mp hx with rfl | hx
        · simp [h]
        · exact h1 x hx
      · refine Or.inr ⟨t :: vs, c, as, by simp [heq], ?_, hc⟩
        intro v hv
        rcases List.mem_cons.mp hv with rfl | hv
        · simp [h]
        · exact hvs v hv

theorem foldl_classifyTok_assignments (toks : List String)
    (args : List String) (vars : List (String × String))
    (h : ∀ t ∈ toks, (parse_variable t).isSome = true) :
    toks.foldl classifyTok (none, args, vars) =
      (none, args, vars ++ toks.filterMap parse_variable) := by
  induction toks generalizing vars with
  | nil => simp
  | cons t ts ih =>
    have ht : (parse_variable t).isSome = true := h t (by simp)
    rcases Option.isSome_iff_exists.mp ht with ⟨p, hp⟩
    rw [List.foldl_cons]
    show ts.foldl classifyTok (classifyTok (none, args, vars) t) = _
    rw [show classifyTok (none, args, vars) t = (none, args, vars ++ [p]) by
      simp [classifyTok, hp]]
    rw [ih _ (fun x hx => h x (List.mem_cons_of_mem _ hx))]
    simp [List.filterMap_cons, hp]

theorem foldl_classifyTok_split (vs : List String) (c : String) (as : List String)
    (args : List String) (vars : List (String × String))
    (hvs : ∀ v ∈ vs, (parse_variable v).isSome = true)
    (hc : parse_variable c = none) :
    (vs ++ c :: as).foldl classifyTok (none, args, vars) =
      (some c, args ++ as, vars ++ vs.filterMap parse_variable) := by
  rw [List.foldl_append, foldl_classifyTok_assignments vs args vars hvs,
    List.foldl_cons]
  show (as.foldl classifyTok (classifyTok (none, args, vars ++ vs.filterMap parse_variable) c)) = _
  rw [show classifyTok (none, args, vars ++ vs.filterMap parse_variable) c =
      (some c, args, vars ++ vs.filterMap parse_variable) by
    simp [classifyTok, hc]]
  rw [foldl_classifyTok_some]

/-- `classify` returns `none` exactly when every token is a `VAR=value`
assignment. -/
theorem classify_eq_none_iff (toks : List String) :
    classify toks = none ↔ ∀ t ∈ toks, (parse_variable t).isSome = true := by
  constructor
  · intro h
    rcases tokens_split toks with h1 | ⟨vs, c, as, heq, hvs, hc⟩
    · exact h1
    · exfalso
      unfold classify at h
      rw [heq, foldl_classifyTok_split vs c as [] [] hvs hc] at h
      simp at h
  · intro h
    unfold classify
    rw [foldl_classifyTok_assignments toks [] [] h]

/-- A successful `classify` splits its token list at the first
non-assignment token: assignments before it become `vars`, it becomes
the command, and everything after it (assignment-shaped or not) becomes
`args`. -/
theorem classify_eq_some (toks : List String) (cmd : Command)
    (h : classify toks = some cmd) :
    ∃ vs as, toks = vs ++ cmd.command :: as ∧
      (∀ v ∈ vs, (parse_variable v).isSome = true) ∧
      parse_variable cmd.command = none ∧
      cmd.args = as ∧ cmd.vars = vs.filterMap parse_variable := by
  rcases tokens_split toks with h1 | ⟨vs, c, as, heq, hvs, hc⟩
  · exfalso
    rw [(classify_eq_none_iff toks).mpr h1] at h
    exact Option.noConfusion h
  · subst heq
    unfold classify at h
    rw [foldl_classifyTok_split vs c as [] [] hvs hc] at h
    simp only [Option.some.injEq] at h
    subst h
    exact ⟨vs, as, by simp, hvs, hc, rfl, by simp⟩

theorem scanStep_out_eq_some (sc : ScanState) (c : Char) (t : String)
    (h : (scanStep sc c).2 = some t) :
    sc.token ≠ [] ∧ t = String.mk sc.token := by
  unfold scanStep scanFlush at h
  dsimp only at h
  split_ifs at h with h1 h2
  exact ⟨h2, by simpa using h.symm⟩

theorem String_mk_eq_empty_iff (tk : List Char) :
    String.mk tk = "" ↔ tk = [] := by
  constructor
  · intro h
    have := congrArg String.data h
    simpa using this
  · intro h
    subst h
    rfl

theorem mem_scanTokens_ne_empty (cs : List Char) (sc : ScanState) (t : String)
    (h : t ∈ (scanTokens sc cs).1) : t ≠ "" := by
  induction cs generalizing sc with
  | nil => simp [scanTokens] at h
  | cons c cs ih =>
    rw [scanTokens_cons] at h
    rcases List.mem_append.mp h with h1 | h1
    · cases hout : (scanStep sc c).2 with
      | none => rw [hout] at h1; simp at h1
      | some x =>
        rw [hout] at h1
        simp only [Option.toList_some, List.mem_singleton] at h1
        subst h1
        rcases scanStep_out_eq_some sc c t hout with ⟨hne, rfl⟩
        rw [Ne, String_mk_eq_empty_iff]
        exact hne
    · exact ih _ h1

/-- Every token of `tokenize` is nonempty: `token_finished` is only ever
reached with a nonempty accumulator contributing to the stream. -/
theorem tokenize_ne_empty (cs : List Char) (t : String)
    (h : t ∈ tokenize cs) : t ≠ "" := by
  unfold tokenize at h
  dsimp only at h
  rcases List.mem_append.mp h with h1 | h1
  · exact mem_scanTokens_ne_empty cs _ t h1
  · split_ifs at h1 with h2
    · simp at h1
    · simp only [List.mem_singleton] at h1
      subst h1
      rw [Ne, String_mk_eq_empty_iff]
      exact h2

theorem ws_not_special (c : Char) (h : rustIsWhitespace c = true) :
    c ≠ bslash ∧ c ≠ dquote ∧ c ≠ squote := by
  refine ⟨?_, ?_, ?_⟩ <;> rintro rfl <;> revert h <;> decide

theorem scanStep_ws (tk : List Char) (w : Bool) (c : Char)
    (hc : rustIsWhitespace c = true) :
    scanStep ⟨tk, w, none, false⟩ c = (⟨tk, true, none, false⟩, none) := by
  rcases ws_not_special c hc with ⟨h1, h2, h3⟩
  unfold scanStep scanFlush scanMatch
  simp [hc, h1, h2, h3]

theorem scanStep_plain_nonws (tk : List Char) (w : Bool) (c : Char)
    (hws : rustIsWhitespace c = false)
    (h1 : c ≠ dquote) (h2 : c ≠ squote) (h3 : c ≠ bslash) :
    scanStep ⟨tk, w, none, false⟩ c =
      if w then (⟨[c], false, none, false⟩,
        if tk = [] then none else some (String.mk tk))
      else (⟨tk ++ [c], false, none, false⟩, none) := by
  unfold scanStep scanFlush scanMatch
  cases w <;> simp [hws, h1, h2, h3]

theorem scanTokens_ws (cs : List Char) (w : Bool)
    (h : ∀ c ∈ cs, rustIsWhitespace c = true) :
    ∃ w', scanTokens ⟨[], w, none, false⟩ cs = ([], ⟨[], w', none, false⟩) := by
  induction cs generalizing w with
  | nil => exact ⟨w, rfl⟩
  | cons c cs ih =>
    have hc : rustIsWhitespace c = true := h c (by simp)
    rcases ih true (fun x hx => h x (List.mem_cons_of_mem _ hx)) with ⟨w', hw⟩
    refine ⟨w', ?_⟩
    rw [scanTokens_cons, scanStep_ws [] w c hc]
    simp [hw]

/-- Whitespace-only input yields no tokens at all. -/
theorem tokenize_ws (cs : List Char)
    (h : ∀ c ∈ cs, rustIsWhitespace c = true) : tokenize cs = [] := by
  rcases scanTokens_ws cs false h with ⟨w', hw⟩
  unfold tokenize
  rw [hw]
  simp

theorem tokenize_eq_tokensFrom (cs : List Char) :
    tokenize cs = tokensFrom ⟨[], false, none, false⟩ cs := rfl

theorem tokensFrom_cons (sc : ScanState) (c : Char) (cs : List Char) :
    tokensFrom sc (c :: cs) =
      (scanStep sc c).2.toList ++ tokensFrom (scanStep sc c).1 cs := by
  unfold tokensFrom
  rw [scanTokens_cons]
  simp [List.append_assoc]

theorem tokensFrom_plain (cs : List Char) (tk : List Char) (w : Bool)
    (h : ∀ c ∈ cs, c ≠ dquote ∧ c ≠ squote ∧ c ≠ bslash) :
    tokensFrom ⟨tk, w, none, false⟩ cs =
      if w then flushOpt tk ++ splitWsGo [] cs else splitWsGo tk cs := by
  induction cs generalizing tk w with
  | nil =>
    cases w <;> simp [tokensFrom, scanTokens, splitWsGo, flushOpt]
  | cons c cs ih =>
    rcases h c (by simp) with ⟨h1, h2, h3⟩
    have hrest : ∀ x ∈ cs, x ≠ dquote ∧ x ≠ squote ∧ x ≠ bslash :=
      fun x hx => h x (List.mem_cons_of_mem _ hx)
    cases hws : rustIsWhitespace c with
    | true =>
      rw [tokensFrom_cons, scanStep_ws tk w c hws]
      dsimp only [Option.toList_none, List.nil_append]
      have hih : tokensFrom ⟨tk, true, none, false⟩ cs =
          flushOpt tk ++ splitWsGo [] cs := by
        simpa using ih tk true hrest
      rw [hih]
      cases w <;> simp [splitWsGo, hws, flushOpt]
    | false =>
      rw [tokensFrom_cons, scanStep_plain_nonws tk w c hws h1 h2 h3]
      cases w with
      | false =>
        rw [if_neg Bool.false_ne_true]
        dsimp only [Option.toList_none, List.nil_append]
        have hih : tokensFrom ⟨tk ++ [c], false, none, false⟩ cs =
            splitWsGo (tk ++ [c]) cs := by
          simpa using ih (tk ++ [c]) false hrest
        rw [hih]
        simp [splitWsGo, hws]
      | true =>
        rw [if_pos rfl]
        have hih : tokensFrom ⟨[c], false, none, false⟩ cs =
            splitWsGo [c] cs := by
          simpa using ih [c] false hrest
        rw [hih]
        have hsp : splitWsGo [] (c :: cs) = splitWsGo [c] cs := by
          simp [splitWsGo, hws]
        rw [if_pos rfl, hsp]
        split_ifs with he <;> simp [flushOpt, he]

/-- For input without quote characters and backslashes, the parser's
token stream is exactly the whitespace split of the input. -/
theorem tokenize_plain (cs : List Char)
    (h : ∀ c ∈ cs, c ≠ dquote ∧ c ≠ squote ∧ c ≠ bslash) :
    tokenize cs = splitWs cs := by
  rw [tokenize_eq_tokensFrom, tokensFrom_plain cs [] false h]
  simp [splitWs]

theorem splitnEq_recon (cs : List Char) (a b : List Char)
    (h : splitnEq cs = some (a, b)) : a ++ Char.ofNat 61 :: b = cs := by
  induction cs generalizing a with
  | nil => simp [splitnEq] at h
  | cons c cs ih =>
    unfold splitnEq at h
    split_ifs at h with h1
    · simp only [Option.some.injEq, Prod.mk.injEq] at h
      rcases h with ⟨rfl, rfl⟩
      simp [h1]
    · cases hrec : splitnEq cs with
      | none => rw [hrec] at h; exact Option.noConfusion h
      | some p =>
        rcases p with ⟨a', b'⟩
        rw [hrec] at h
        simp only [Option.some.injEq, Prod.mk.injEq] at h
        rcases h with ⟨rfl, rfl⟩
        rw [← ih a' hrec]
        simp

theorem String_data_append (s t : String) :
    (s ++ t).data = s.data ++ t.data := by
  cases s; cases t; rfl

/-- A successful `VAR=value` split reconstructs the original token:
`NAME=value` with the first `=` restored. -/
theorem parse_variable_recon (t : String) (n v : String)
    (h : parse_variable t = some (n, v)) : n ++ "=" ++ v = t := by
  unfold parse_variable at h
  cases hs : splitnEq t.data with
  | none => rw [hs] at h; exact Option.noConfusion h
  | some p =>
    rcases p with ⟨a, b⟩
    rw [hs] at h
    simp only [Option.some.injEq, Prod.mk.injEq] at h
    rcases h with ⟨rfl, rfl⟩
    have hrec := splitnEq_recon t.data a b hs
    apply String.ext
    rw [String_data_append, String_data_append]
    rw [show (String.mk a).data = a from rfl, show (String.mk b).data = b from rfl]
    rw [show ("=" : String).data = [Char.ofNat 61] from rfl]
    simpa using hrec

theorem token_finished_escape (st : ParseState) :
    (token_finished st).escape = st.escape := by
  unfold token_finished
  split_ifs
  · rfl
  · cases st.command with
    | none =>
      dsimp only
      cases parse_variable (String.mk st.token) <;> rfl
    | some c => rfl

theorem token_finished_string_delim (st : ParseState) :
    (token_finished st).string_delim = st.string_delim := by
  unfold token_finished
  split_ifs
  · rfl
  · cases st.command with
    | none =>
      dsimp only
      cases parse_variable (String.mk st.token) <;> rfl
    | some c => rfl

theorem token_finished_token (st : ParseState) :
    (token_finished st).token = [] := by
  unfold token_finished
  split_ifs with h
  · exact h
  · rfl

theorem token_finished_empty (st : ParseState) (h : st.token = []) :
    token_finished st = st := by
  unfold token_finished
  rw [if_pos h]

theorem token_finished_set_escape (st : ParseState) (e : Bool) :
    token_finished { st with escape := e } = { token_finished st with escape := e } := by
  unfold token_finished
  dsimp only
  split_ifs <;>
    first
      | rfl
      | (cases st.command <;> dsimp only <;>
          first
            | rfl
            | (cases parse_variable (String.mk st.token) <;> rfl))

theorem stepFlush_escape (st : ParseState) (c : Char) :
    (stepFlush st c).escape = st.escape := by
  unfold stepFlush
  split_ifs
  · exact token_finished_escape st
  · rfl

theorem stepFlush_string_delim (st : ParseState) (c : Char) :
    (stepFlush st c).string_delim = st.string_delim := by
  unfold stepFlush
  split_ifs
  · exact token_finished_string_delim st
  · rfl

theorem stepFlush_whitespace_nonws (st : ParseState) (c : Char)
    (h : rustIsWhitespace c = false) : (stepFlush st c).whitespace = false := by
  unfold stepFlush
  split_ifs with hg
  · rfl
  · rw [h] at hg
    simpa using hg

/-- An unescaped backslash only sets the escape flag (after the usual
pending-token flush); it is not appended to the token. -/
theorem stepChar_bslash (st : ParseState) (he : st.escape = false) :
    stepChar st bslash = { stepFlush st bslash with escape := true } := by
  unfold stepChar stepMatch
  rw [if_pos]
  simp [stepFlush_escape, he]

/-- While the escape flag is set (and no whitespace gap is pending), any
character is appended literally and the flag is cleared. -/
theorem stepChar_escaped (st : ParseState) (c : Char)
    (he : st.escape = true) (hw : st.whitespace = false) :
    stepChar st c = { st with token := st.token ++ [c], escape := false } := by
  unfold stepChar stepFlush stepMatch
  simp [he, hw]

theorem findBinary_none (args : List String)
    (h : ∀ a ∈ args, isBinaryCandidate a = false) : findBinary args = none := by
  induction args with
  | nil => rfl
  | cons a rest ih =>
    unfold findBinary
    rw [if_neg (by simp [h a (by simp)])]
    rw [ih (fun x hx => h x (List.mem_cons_of_mem _ hx))]

theorem findBinary_split (pre : List String) (b : String) (post : List String)
    (hpre : ∀ a ∈ pre, isBinaryCandidate a = false)
    (hb : isBinaryCandidate b = true) :
    findBinary (pre ++ b :: post) = some (pre, b, post) := by
  induction pre with
  | nil =>
    rw [List.nil_append]
    unfold findBinary
    rw [if_pos hb]
  | cons a rest ih =>
    rw [List.cons_append]
    unfold findBinary
    rw [if_neg (by simp [hpre a (by simp)])]
    rw [ih (fun x hx => hpre x (List.mem_cons_of_mem _ hx))]

theorem filterMap_parse_variable_recon (vs : List String)
    (h : ∀ v ∈ vs, (parse_variable v).isSome = true) :
    (vs.filterMap parse_variable).map (fun p => p.1 ++ "=" ++ p.2) = vs := by
  induction vs with
  | nil => rfl
  | cons v rest ih =>
    rcases Option.isSome_iff_exists.mp (h v (by simp)) with ⟨p, hp⟩
    rcases p with ⟨n, val⟩
    rw [List.filterMap_cons, hp, List.map_cons,
      ih (fun x hx => h x (List.mem_cons_of_mem _ hx))]
    rw [parse_variable_recon v n val hp]

theorem set_escape_self (st : ParseState) (h : st.escape = false) :
    ({ st with escape := false } : ParseState) = st := by
  cases st
  simp_all


/-- C1: the Display rendering is claimed to write each variable as
`NAME=value` plus a space, then the command plus a space, then the
space-separated arguments, and to terminate without panicking when
`args` is empty. The code disagrees on the empty-args case: the slice
bound `args.len() - 1` underflows and the rendering panics (modelled as
`none`) for every `Command` with empty `args`, even though the
`args.last()` branch shows the empty case was meant to be handled. The
nonempty-args format itself is as claimed, witnessed by a concrete
evaluation. -/
theorem C1_display_format :
    (∀ c : Command, c.args = [] → Command.fmt c = none)
    ∧ Command.fmt ⟨"c", ["a", "b"], [("V", "1")]⟩ = some "V=1 c a b" := by
  constructor
  · intro c h
    simp [Command.fmt, usizeSub, h]
  · decide

theorem C1_display_format_witness : Command.fmt ⟨"cmd", [], []⟩ = none :=
  C1_display_format.1 ⟨"cmd", [], []⟩ rfl

/-- C2: `parse` returns `none` exactly when the input contains no
command token: every whitespace-only input (including the empty string)
and every input whose token stream consists only of `VAR=value`
assignments yields `none`, and every input whose token stream contains a
non-assignment token yields `some`. -/
theorem C2_parse_none_characterization :
    (∀ s : String, (∀ c ∈ s.data, rustIsWhitespace c = true) → parse s = none)
    ∧ parse "" = none
    ∧ (∀ s : String, parse s = none ↔
        ∀ t ∈ tokenize s.data, (parse_variable t).isSome = true) := by
  refine ⟨?_, by decide, ?_⟩
  · intro s h
    unfold parse
    rw [parseChars_eq_classify_tokenize, tokenize_ws s.data h]
    rfl
  · intro s
    unfold parse
    rw [parseChars_eq_classify_tokenize]
    exact classify_eq_none_iff (tokenize s.data)

theorem C2_parse_none_characterization_witness :
    parse "   " = none ∧
      (∀ t ∈ tokenize ("A=1 B=2").data, (parse_variable t).isSome = true) :=
  ⟨C2_parse_none_characterization.1 "   " (by decide),
   (C2_parse_none_characterization.2.2 "A=1 B=2").mp (by decide)⟩

/-- C3: whenever `parse` succeeds, the resulting `command` field is a
nonempty string. -/
theorem C3_parse_command_nonempty :
    ∀ (s : String) (cmd : Command), parse s = some cmd → cmd.command ≠ "" := by
  intro s cmd h
  unfold parse at h
  rw [parseChars_eq_classify_tokenize] at h
  rcases classify_eq_some _ _ h with ⟨vs, as, heq, _, _, _, _⟩
  apply tokenize_ne_empty s.data
  rw [heq]
  simp

theorem C3_parse_command_nonempty_witness :
    (Command.mk "binary_name" [] []).command ≠ "" :=
  C3_parse_command_nonempty "binary_name" ⟨"binary_name", [], []⟩ (by decide)

/-- C4: in a successful parse, the token stream splits at the first
non-assignment token: the `VAR=value` tokens strictly before it (and
only those) populate `variables` in order, it becomes the command, and
every later token — assignment-shaped or not — is appended to `args`. -/
theorem C4_variables_before_command :
    ∀ (s : String) (cmd : Command), parse s = some cmd →
    ∃ vs as, tokenize s.data = vs ++ cmd.command :: as
      ∧ (∀ v ∈ vs, (parse_variable v).isSome = true)
      ∧ parse_variable cmd.command = none
      ∧ cmd.args = as
      ∧ cmd.vars = vs.filterMap parse_variable := by
  intro s cmd h
  unfold parse at h
  rw [parseChars_eq_classify_tokenize] at h
  exact classify_eq_some _ _ h

theorem C4_variables_before_command_witness :
    ∃ vs as, tokenize ("A=1 cmd B=2").data =
        vs ++ (Command.mk "cmd" ["B=2"] [("A", "1")]).command :: as
      ∧ (∀ v ∈ vs, (parse_variable v).isSome = true)
      ∧ parse_variable (Command.mk "cmd" ["B=2"] [("A", "1")]).command = none
      ∧ (Command.mk "cmd" ["B=2"] [("A", "1")]).args = as
      ∧ (Command.mk "cmd" ["B=2"] [("A", "1")]).vars = vs.filterMap parse_variable :=
  C4_variables_before_command "A=1 cmd B=2" ⟨"cmd", ["B=2"], [("A", "1")]⟩ (by decide)

/-- C5: an unescaped backslash is consumed (never appended) and makes
the single following character be appended literally, whatever it is —
so an escaped space does not terminate a token and an escaped quote does
not toggle the quote state; a trailing unescaped backslash is simply
dropped (parsing the input without it gives the same result, no panic);
and `parse "cmd escaped\\ whitespace"` yields the single argument
`"escaped whitespace"`. -/
theorem C5_escape_semantics :
    (∀ (st : ParseState) (c : Char), st.escape = false →
      stepChar (stepChar st bslash) c =
        { stepFlush st bslash with token := (stepFlush st bslash).token ++ [c] })
    ∧ (∀ cs : List Char, (cs.foldl stepChar initState).escape = false →
        parseChars (cs ++ [bslash]) = parseChars cs)
    ∧ parse "cmd escaped\\ whitespace" = some ⟨"cmd", ["escaped whitespace"], []⟩ := by
  refine ⟨?_, ?_, by decide⟩
  · intro st c he
    rw [stepChar_bslash st he]
    have hw : ({ stepFlush st bslash with escape := true } : ParseState).whitespace
        = false := by
      dsimp only
      exact stepFlush_whitespace_nonws st bslash (by decide)
    rw [stepChar_escaped _ c rfl hw]
    ext <;> simp [stepFlush_escape, he]
  · intro cs he
    unfold parseChars
    rw [List.foldl_append]
    simp only [List.foldl_cons, List.foldl_nil]
    rw [stepChar_bslash _ he, token_finished_set_escape]
    dsimp only
    unfold stepFlush
    split_ifs with hg
    · rw [token_finished_empty]
      exact token_finished_token _
    · rfl

theorem C5_escape_semantics_witness :
    stepChar (stepChar initState bslash) (Char.ofNat 120) =
      { stepFlush initState bslash with
          token := (stepFlush initState bslash).token ++ [Char.ofNat 120] }
    ∧ parseChars (("cmd x").data ++ [bslash]) = parseChars ("cmd x").data :=
  ⟨C5_escape_semantics.1 initState (Char.ofNat 120) rfl,
   C5_escape_semantics.2.1 ("cmd x").data (by decide)⟩

/-- C6: quoted spans are single-character and non-nesting: an unescaped
quote opens a span when none is open, closes the span only when it
matches the opening delimiter, and is appended as a literal character
when the other delimiter's span is open; whitespace inside an open span
is appended literally rather than terminating the token; and parsing
`cmd "string with space in between"` yields that single spaced
argument. -/
theorem C6_quote_semantics :
    (∀ (st : ParseState) (q : Char), (q = dquote ∨ q = squote) →
      st.escape = false → st.string_delim = none →
      stepChar st q = { stepFlush st q with string_delim := some q })
    ∧ (∀ (st : ParseState) (q : Char), (q = dquote ∨ q = squote) →
      st.escape = false → st.string_delim = some q →
      stepChar st q = { stepFlush st q with string_delim := none })
    ∧ (∀ (st : ParseState) (q d : Char), (q = dquote ∨ q = squote) →
      (d = dquote ∨ d = squote) → q ≠ d →
      st.escape = false → st.string_delim = some d →
      stepChar st q = { stepFlush st q with
        token := (stepFlush st q).token ++ [q] })
    ∧ (∀ (st : ParseState) (c d : Char), rustIsWhitespace c = true →
      st.escape = false → st.string_delim = some d →
      stepChar st c = { st with token := st.token ++ [c] })
    ∧ parse "cmd \"string with space in between\"" =
        some ⟨"cmd", ["string with space in between"], []⟩ := by
  refine ⟨?_, ?_, ?_, ?_, by decide⟩
  · intro st q hq he hd
    have h1 : (stepFlush st q).escape = false := by rw [stepFlush_escape]; exact he
    have h2 : (stepFlush st q).string_delim = none := by
      rw [stepFlush_string_delim]; exact hd
    rcases hq with rfl | rfl <;> simp [stepChar, stepMatch, h1, h2] <;> decide
  · intro st q hq he hd
    have h1 : (stepFlush st q).escape = false := by rw [stepFlush_escape]; exact he
    have h2 : (stepFlush st q).string_delim = some q := by
      rw [stepFlush_string_delim]; exact hd
    rcases hq with rfl | rfl <;> simp [stepChar, stepMatch, h1, h2] <;> decide
  · intro st q d hq hdq hne he hd
    have h1 : (stepFlush st q).escape = false := by rw [stepFlush_escape]; exact he
    have h2 : (stepFlush st q).string_delim = some d := by
      rw [stepFlush_string_delim]; exact hd
    rcases hq with rfl | rfl <;> rcases hdq with rfl | rfl <;>
      first
        | exact absurd rfl hne
        | (simp [stepChar, stepMatch, h1, h2]
           rw [if_neg (by decide), if_neg (by decide)])
  · intro st c d hws he hd
    rcases ws_not_special c hws with ⟨hb, hq1, hq2⟩
    have hfl : stepFlush st c = st := by
      unfold stepFlush
      rw [hws]
      simp
    unfold stepChar
    rw [hfl]
    unfold stepMatch
    rw [hd]
    simp [hb, hq1, hq2, hws, he]

theorem C6_quote_semantics_witness :
    stepChar initState dquote =
      { stepFlush initState dquote with string_delim := some dquote }
    ∧ stepChar ⟨[], none, [], false, some dquote, false, []⟩ dquote =
      { stepFlush ⟨[], none, [], false, some dquote, false, []⟩ dquote with
          string_delim := none }
    ∧ stepChar ⟨[], none, [], false, some squote, false, []⟩ dquote =
      { stepFlush ⟨[], none, [], false, some squote, false, []⟩ dquote with
          token := (stepFlush ⟨[], none, [], false, some squote, false, []⟩ dquote).token
            ++ [dquote] }
    ∧ stepChar ⟨[], none, [], false, some dquote, false, []⟩ (Char.ofNat 32) =
      { (⟨[], none, [], false, some dquote, false, []⟩ : ParseState) with
          token := ([] : List Char) ++ [Char.ofNat 32] } :=
  ⟨C6_quote_semantics.1 initState dquote (Or.inl rfl) rfl rfl,
   C6_quote_semantics.2.1 _ dquote (Or.inl rfl) rfl rfl,
   C6_quote_semantics.2.2.1 _ dquote squote (Or.inl rfl) (Or.inr rfl)
     (by decide) rfl rfl,
   C6_quote_semantics.2.2.2.1 _ (Char.ofNat 32) dquote (by decide) rfl rfl⟩

/-- C7: on a `Command` whose command is `env` and whose args contain a
first entry that neither starts with `-` nor contains `=`, `flatten_env`
promotes that entry to be the command, drops the preceding args after
appending those that split on a first `=` to `variables` (in order,
after pre-existing entries; non-splitting ones are silently dropped),
and keeps the args after the binary unchanged; in particular
`env WINEPREFIX=/x wine target.lnk` flattens to
`wine target.lnk` with variable `WINEPREFIX=/x`. -/
theorem C7_flatten_env_extracts :
    (∀ (vars : List (String × String)) (pre post : List String) (b : String),
      (∀ a ∈ pre, isBinaryCandidate a = false) →
      isBinaryCandidate b = true →
      Command.flatten_env ⟨"env", pre ++ b :: post, vars⟩ =
        ⟨b, post, vars ++ pre.filterMap parse_variable⟩)
    ∧ Command.flatten_env ⟨"env", ["WINEPREFIX=/x", "wine", "target.lnk"], []⟩ =
        ⟨"wine", ["target.lnk"], [("WINEPREFIX", "/x")]⟩ := by
  refine ⟨?_, by decide⟩
  intro vars pre post b hpre hb
  unfold Command.flatten_env
  rw [if_neg (by simp)]
  dsimp only
  rw [findBinary_split pre b post hpre hb]

theorem C7_flatten_env_extracts_witness :
    Command.flatten_env ⟨"env", ["A=1", "--flag"] ++ "wine" :: ["t.lnk"], []⟩ =
      ⟨"wine", ["t.lnk"], [] ++ ["A=1", "--flag"].filterMap parse_variable⟩ :=
  C7_flatten_env_extracts.1 [] ["A=1", "--flag"] ["t.lnk"] "wine"
    (by decide) (by decide)

/-- C8: `flatten_env` is a no-op — command, args, and variables all
unchanged, hence idempotent — on every `Command` whose command is not
`env`, and on every `Command` whose command is `env` but whose args have
no entry that both does not start with `-` and does not contain `=`. -/
theorem C8_flatten_env_noop :
    ∀ c : Command,
      (c.command ≠ "env" → c.flatten_env = c)
      ∧ (c.command = "env" → (∀ a ∈ c.args, isBinaryCandidate a = false) →
          c.flatten_env = c) := by
  intro c
  constructor
  · intro h
    unfold Command.flatten_env
    rw [if_pos h]
  · intro h hall
    unfold Command.flatten_env
    rw [if_neg (by simp [h]), findBinary_none c.args hall]

theorem C8_flatten_env_noop_witness :
    Command.flatten_env ⟨"wine", ["x"], []⟩ = ⟨"wine", ["x"], []⟩
    ∧ Command.flatten_env ⟨"env", ["-i", "A=1"], []⟩ = ⟨"env", ["-i", "A=1"], []⟩ :=
  ⟨(C8_flatten_env_noop ⟨"wine", ["x"], []⟩).1 (by decide),
   (C8_flatten_env_noop ⟨"env", ["-i", "A=1"], []⟩).2 rfl (by decide)⟩

/-- C9: for an input containing no quote characters and no backslashes
on which `parse` succeeds, the token-vector serialization of the parsed
`Command` (variables as `NAME=value`, then the command, then the args)
is exactly the whitespace split of the original input. -/
theorem C9_roundtrip_unquoted :
    ∀ (s : String) (cmd : Command),
      (∀ c ∈ s.data, c ≠ dquote ∧ c ≠ squote ∧ c ≠ bslash) →
      parse s = some cmd →
      Command.toVec cmd = splitWs s.data := by
  intro s cmd hplain h
  unfold parse at h
  rw [parseChars_eq_classify_tokenize, tokenize_plain s.data hplain] at h
  rcases classify_eq_some _ _ h with ⟨vs, as, heq, hvs, hc, hargs, hvars⟩
  unfold Command.toVec
  rw [hvars, hargs, filterMap_parse_variable_recon vs hvs]
  exact heq.symm

theorem C9_roundtrip_unquoted_witness :
    Command.toVec ⟨"cmd", ["B=2"], [("A", "1")]⟩ = splitWs ("A=1 cmd B=2").data :=
  C9_roundtrip_unquoted "A=1 cmd B=2" ⟨"cmd", ["B=2"], [("A", "1")]⟩
    (by decide) (by decide)

/-- C10: the parser never produces an empty token: in every successful
parse the command is nonempty, every argument is nonempty, and every
variable entry stems from a nonempty `NAME=value` token; a quoted empty
span standing alone is dropped rather than becoming an empty argument,
as in `parse "cmd \"\" x"`, which yields `args = ["x"]`. -/
theorem C10_no_empty_tokens :
    (∀ (s : String) (cmd : Command), parse s = some cmd →
      cmd.command ≠ "" ∧ (∀ a ∈ cmd.args, a ≠ "") ∧
        ∀ p ∈ cmd.vars, p.1 ++ "=" ++ p.2 ≠ "")
    ∧ parse "cmd \"\" x" = some ⟨"cmd", ["x"], []⟩ := by
  refine ⟨?_, by decide⟩
  intro s cmd h
  unfold parse at h
  rw [parseChars_eq_classify_tokenize] at h
  rcases classify_eq_some _ _ h with ⟨vs, as, heq, hvs, hc, hargs, hvars⟩
  refine ⟨?_, ?_, ?_⟩
  · apply tokenize_ne_empty s.data
    rw [heq]
    simp
  · intro a ha
    apply tokenize_ne_empty s.data
    rw [heq]
    rw [hargs] at ha
    simp [ha]
  · intro p hp
    rw [hvars] at hp
    rcases List.mem_filterMap.mp hp with ⟨v, hv, hpv⟩
    rcases p with ⟨n, val⟩
    rw [parse_variable_recon v n val hpv]
    apply tokenize_ne_empty s.data
    rw [heq]
    simp [hv]

theorem C10_no_empty_tokens_witness :
    (Command.mk "cmd" ["x"] []).command ≠ ""
    ∧ (∀ a ∈ (Command.mk "cmd" ["x"] []).args, a ≠ "")
    ∧ ∀ p ∈ (Command.mk "cmd" ["x"] []).vars, p.1 ++ "=" ++ p.2 ≠ "" :=
  C10_no_empty_tokens.1 "cmd \"\" x" ⟨"cmd", ["x"], []⟩ (by decide)
